import Mathlib

/-!
Verification of the indexing / retrieval / lead-capture core of the chatbot
repository (src/app/page.tsx).  Each JavaScript function of the API route is
shallowly embedded as an executable Lean definition; the claims about the
program are then proved (or refuted) as theorems over these definitions.
-/

namespace Chatbot

/-! ### Chunker (source: function chunkText, src/app/page.tsx lines 476-483)

JavaScript strings are modelled as lists of characters.  String.prototype.trim
is modelled by trimList; String.prototype.slice (with its clamping of indices
into the range 0..length) by jsSlice.  The for-loop of chunkText is modelled
by the fuel-indexed chunkTextLoop: a result of none means the loop has not
finished within the given number of iterations (for a terminating run a fuel
of text.length + 1 suffices, see the theorems below), which lets the
non-termination of the loop for overlap >= size be stated faithfully. -/

def wsChar (c : Char) : Bool := c.isWhitespace

def trimList (s : List Char) : List Char :=
  ((s.dropWhile wsChar).reverse.dropWhile wsChar).reverse

def jsIndex (len : Nat) (x : Int) : Nat :=
  (min (max (if x < 0 then (len : Int) + x else x) 0) (len : Int)).toNat

def jsSlice (l : List Char) (a b : Int) : List Char :=
  (l.drop (jsIndex l.length a)).take (jsIndex l.length b - jsIndex l.length a)

def chunkTextLoop (text : List Char) (size overlap : Nat) :
    Nat → Int → Option (List (List Char))
  | 0, _ => none
  | fuel + 1, i =>
    if i < (text.length : Int) then
      (chunkTextLoop text size overlap fuel (i + ((size : Int) - (overlap : Int)))).map
        (fun rest =>
          let piece := trimList (jsSlice text i (i + (size : Int)))
          if 50 < piece.length then piece :: rest else rest)
    else
      some []

def chunkText (text : List Char) (size overlap : Nat) : Option (List (List Char)) :=
  chunkTextLoop text size overlap (text.length + 1) 0

def chunkTextTerminates (text : List Char) (size overlap : Nat) : Prop :=
  ∃ fuel, (chunkTextLoop text size overlap fuel 0).isSome = true

def numWindows (len step : Nat) : Nat := (len + step - 1) / step

/-! ### Site crawler (source: crawlSiteRecursive, src/app/page.tsx lines 486-515)

The browser is abstracted to a link graph: links gives the (same-origin,
deduplicated) anchors collected by page.evaluate for a URL, and fails
indicates that navigating / evaluating that URL throws (the catch branch of
the source, which logs and returns an empty contribution).  A call
crawlSiteRecursive(browser, url, depth, visited) first checks depth <= 0 and
visited-membership, then adds url to visited, navigates, and recurses into
each discovered link with depth - 1.  crawlList processes a whole list of
sibling URLs at one depth (the for-of loop over links); the per-URL body is
crawlStep.  navLog records, in order, every URL for which a navigation was
attempted; result is the returned URL list. -/

structure Graph where
  links : String → List String
  fails : String → Bool

structure CrawlOut where
  result : List String
  visited : List String
  navLog : List String
deriving DecidableEq

def crawlStep (child : String → List String → CrawlOut) (g : Graph) :
    List String → List String → CrawlOut
  | [], v => ⟨[], v, []⟩
  | url :: rest, v =>
    if url ∈ v then crawlStep child g rest v
    else
      let v1 := url :: v
      if g.fails url then
        let o2 := crawlStep child g rest v1
        ⟨o2.result, o2.visited, url :: o2.navLog⟩
      else
        let o1 := child url v1
        let o2 := crawlStep child g rest o1.visited
        ⟨url :: (o1.result ++ o2.result), o2.visited, url :: (o1.navLog ++ o2.navLog)⟩

def crawlList (g : Graph) : Nat → List String → List String → CrawlOut
  | 0, _, visited => ⟨[], visited, []⟩
  | depth + 1, urls, visited =>
    crawlStep (fun url v => crawlList g depth (g.links url) v) g urls visited

def crawlSiteRecursive (g : Graph) (baseUrl : String) (depth : Nat) : CrawlOut :=
  crawlList g depth [baseUrl] []

def CrawlInv (v : List String) (o : CrawlOut) : Prop :=
  v ⊆ o.visited ∧
  (∀ u ∈ o.result, u ∈ o.visited ∧ u ∉ v) ∧
  (∀ u ∈ o.navLog, u ∈ o.visited ∧ u ∉ v) ∧
  o.result.Nodup ∧ o.navLog.Nodup

/-! ### Embedder (source: embedText, src/app/page.tsx lines 540-562)

An attempt of the underlying embed call either returns a vector or throws a
JavaScript error; the source classifies a thrown error as a quota error when
it has a statusCode field and either statusCode === 429 or the message
contains the word exhausted.  embedTextLoop models the for-loop: remaining
counts the attempts still allowed, idx is the index of the next attempt, d is
the current delay.  The second component of the result is the list of sleep
durations performed, in order.  EmbedResult.exhausted models the final
throw new Error of the source after the loop. -/

structure JsError where
  hasStatusCode : Bool
  statusCode : Nat
  msgExhausted : Bool
deriving DecidableEq

def isQuotaError (e : JsError) : Bool :=
  e.hasStatusCode && (e.statusCode == 429 || e.msgExhausted)

inductive AttemptResult where
  | ok (v : List Int)
  | err (e : JsError)
deriving DecidableEq

def attemptIsQuotaErr : AttemptResult → Bool
  | AttemptResult.ok _ => false
  | AttemptResult.err e => isQuotaError e

inductive EmbedResult where
  | ok (v : List Int)
  | raised (e : JsError)
  | exhausted
deriving DecidableEq

def embedTextLoop (att : Nat → AttemptResult) :
    Nat → Nat → Nat → EmbedResult × List Nat
  | 0, _, _ => (EmbedResult.exhausted, [])
  | remaining + 1, idx, d =>
    match att idx with
    | AttemptResult.ok v => (EmbedResult.ok v, [])
    | AttemptResult.err e =>
      if isQuotaError e then
        let p := embedTextLoop att remaining (idx + 1) (2 * d)
        (p.1, d :: p.2)
      else
        (EmbedResult.raised e, [])

def embedText (att : Nat → AttemptResult) (retries delay : Nat) :
    EmbedResult × List Nat :=
  embedTextLoop att retries 0 delay

/-! ### Indexer (source: scrapePage lines 519-537 and ensurePageIndexed
lines 565-580)

The browser-side extraction (navigate, strip script/style/noscript/svg/img,
walk text nodes, collapse whitespace) is abstracted by IndexEnv.pageText,
which gives the normalized visible text of a page; scrapePage then chunks it
with the source defaults size = 800, overlap = 200 exactly as the source
does.  IndexEnv.embedVec abstracts a successful embedText call for a chunk.
The document store is a list of rows; the supabase count query of
ensurePageIndexed is countFor, and the insert loop appends one row per chunk
with chunk_index taken from chunks.entries().  The IndexedOut record also
reports whether extraction ran and which rows this call inserted. -/

structure ChunkRow where
  url : String
  chunk_index : Nat
  text : List Char
  embedding : List Int
deriving DecidableEq

structure IndexEnv where
  pageText : String → List Char
  embedVec : List Char → List Int

def scrapePage (env : IndexEnv) (url : String) : List (List Char) :=
  (chunkText (env.pageText url) 800 200).getD []

def countFor (url : String) (store : List ChunkRow) : Nat :=
  (store.filter (fun r => r.url == url)).length

structure IndexedOut where
  store : List ChunkRow
  scraped : Bool
  inserted : List ChunkRow
deriving DecidableEq

def ensurePageIndexed (env : IndexEnv) (url : String) (store : List ChunkRow) :
    IndexedOut :=
  if 0 < countFor url store then ⟨store, false, []⟩
  else
    let rows := (scrapePage env url).enum.map
      (fun p => ChunkRow.mk url p.1 p.2 (env.embedVec p.2))
    ⟨store ++ rows, true, rows⟩

/-! ### Retriever (source: searchDocuments, src/app/page.tsx lines 598-604)

SearchEnv.att gives, for the query string, the outcome of each attempt of
the underlying embed call (searchDocuments calls embedText with its default
retries = 5 and delay = 2000); SearchEnv.rpc abstracts the supabase
match_documents remote procedure call, which returns either an error (then
the source throws it) or data that may be null.  The joined string uses the
blank-line separator of the source. -/

structure DocumentRow where
  text : String
deriving DecidableEq

inductive SearchOutcome where
  | ok (s : String)
  | embedError (r : EmbedResult)
  | storeError (e : String)
deriving DecidableEq

structure SearchEnv where
  att : String → Nat → AttemptResult
  rpc : List Int → Nat → Except String (Option (List DocumentRow))

def searchDocuments (env : SearchEnv) (query : String) (topK : Nat) :
    SearchOutcome :=
  match (embedText (env.att query) 5 2000).1 with
  | EmbedResult.ok v =>
    match env.rpc v topK with
    | Except.error e => SearchOutcome.storeError e
    | Except.ok data =>
      SearchOutcome.ok
        (String.intercalate "\n\n" (((data.getD []).map DocumentRow.text)))
  | EmbedResult.exhausted => SearchOutcome.embedError EmbedResult.exhausted
  | EmbedResult.raised e => SearchOutcome.embedError (EmbedResult.raised e)

/-! ### POST handler (source: POST, src/app/page.tsx lines 607-802)

The request body carries the conversation and an optional query field; a
message carries its text parts and the optional form metadata.  The handler
first looks for a form payload on the last user message; if present it
inserts a user_leads row built from the payload fields, with no validation
of any field, and returns (status 500 on a store error, else 200 with a
thank-you text).  Only on the non-form path does it compute the last user
text, run the one-shot indexing guard on the module-level indexingStarted
flag, perform retrieval, and call the language model.  PostEvent records
these effects in order; runPosts chains any number of requests through the
process state, whose initial value has indexingStarted = false.
validEmail models the client-side email regexp of the chat page
(an email matches when it has exactly one at-sign, a non-empty local part,
no whitespace, and a dot strictly inside the domain part). -/

structure FormPayload where
  fullName : String
  email : String
  phone : Option String
  company : Option String
  inquiryType : Option String
  message : Option String
  contactMethod : Option String
  bestTime : Option String
  agree : Option Bool
  newsletter : Option Bool
deriving DecidableEq

structure LeadRow where
  name : String
  email : String
  phone : Option String
  company : Option String
  inquiry_type : Option String
  message : Option String
  contact_method : Option String
  best_time : Option String
  agree : Option Bool
  newsletter : Option Bool
deriving DecidableEq

def leadOfForm (f : FormPayload) : LeadRow :=
  ⟨f.fullName, f.email, f.phone, f.company, f.inquiryType, f.message,
    f.contactMethod, f.bestTime, f.agree, f.newsletter⟩

def validEmail (s : String) : Bool :=
  match s.toList.splitOn '@' with
  | [a, d] =>
    !a.isEmpty && a.all (fun c => !c.isWhitespace) &&
      d.all (fun c => !c.isWhitespace) && ((d.drop 1).dropLast.contains '.')
  | _ => false

inductive Role where
  | user
  | assistant
  | system
deriving DecidableEq

structure ChatMsg where
  role : Role
  texts : List String
  form : Option FormPayload
deriving DecidableEq

structure PostBody where
  messages : List ChatMsg
  query : Option String
deriving DecidableEq

def lastUserForm (b : PostBody) : Option FormPayload :=
  ((b.messages.reverse).find? (fun m => decide (m.role = Role.user))).bind
    (fun m => m.form)

def lastUserText (b : PostBody) : String :=
  match b.query with
  | some q => q
  | none =>
    match (b.messages.reverse).find? (fun m => decide (m.role = Role.user)) with
    | some m => String.intercalate " " m.texts
    | none => ""

structure PostEnv where
  insertLeadError : Option String
deriving DecidableEq

structure PostState where
  indexingStarted : Bool
  leads : List LeadRow
deriving DecidableEq

inductive PostEvent where
  | leadInsert (r : LeadRow)
  | indexTrigger
  | retrieval
  | modelCall
deriving DecidableEq

structure PostOut where
  state : PostState
  status : Nat
  events : List PostEvent
deriving DecidableEq

def POST (env : PostEnv) (st : PostState) (b : PostBody) : PostOut :=
  match lastUserForm b with
  | some f =>
    match env.insertLeadError with
    | some _ => ⟨st, 500, [PostEvent.leadInsert (leadOfForm f)]⟩
    | none =>
      ⟨⟨st.indexingStarted, st.leads ++ [leadOfForm f]⟩, 200,
        [PostEvent.leadInsert (leadOfForm f)]⟩
  | none =>
    let trig : List PostEvent :=
      if st.indexingStarted then [] else [PostEvent.indexTrigger]
    let retr : List PostEvent :=
      if lastUserText b = "" then [] else [PostEvent.retrieval]
    ⟨⟨true, st.leads⟩, 200, trig ++ retr ++ [PostEvent.modelCall]⟩

def runPosts : List (PostEnv × PostBody) → PostState → PostState × List PostEvent
  | [], st => (st, [])
  | (env, b) :: rs, st =>
    let o := POST env st b
    let p := runPosts rs o.state
    (p.1, o.events ++ p.2)

def isTrigger : PostEvent → Bool
  | PostEvent.indexTrigger => true
  | _ => false

def isRetrievalEv : PostEvent → Bool
  | PostEvent.retrieval => true
  | _ => false

def isModelCallEv : PostEvent → Bool
  | PostEvent.modelCall => true
  | _ => false

/-! ### Claim theorems -/

/-- A two-page site whose pages link to each other: a cycle of length 2,
which is not larger than the default crawl depth 2. -/
def cyclicG : Graph :=
  ⟨fun u => if u = "a" then ["b"] else if u = "b" then ["a"] else [],
   fun _ => false⟩

/-- Attempt outcomes that are rate-limited (HTTP 429) twice and then
succeed. -/
def att0 : Nat → AttemptResult := fun i =>
  if i < 2 then AttemptResult.err ⟨true, 429, false⟩ else AttemptResult.ok [1]

/-- An indexing environment whose pages are empty and whose embeddings are
the empty vector. -/
def envA : IndexEnv := ⟨fun _ => [], fun _ => []⟩

/-- A pre-existing chunk row for the URL u. -/
def rowA : ChunkRow := ⟨"u", 0, ['x'], []⟩

/-- An indexing environment whose every page consists of sixty letters a,
which chunkText keeps as one chunk of trimmed length 60 > 50. -/
def envB : IndexEnv := ⟨fun _ => List.replicate 60 'a', fun _ => [0]⟩

/-- A retrieval environment whose embedding succeeds immediately and whose
store returns two matching texts. -/
def envS : SearchEnv :=
  ⟨fun _ _ => AttemptResult.ok [0],
   fun _ _ => Except.ok (some [⟨"hello"⟩, ⟨"world"⟩])⟩

/-- The lead payload of the end-to-end scenario of the claim: a well-formed
name together with a syntactically invalid email address. -/
def f0 : FormPayload :=
  ⟨"Jane Doe", "not-an-email", none, none, none, none, none, none, none, none⟩

/-- A request whose last (and only) user message carries the payload f0. -/
def b0 : PostBody :=
  ⟨[⟨Role.user, ["Customer Follow-Up Form submitted"], some f0⟩], none⟩

/-- The same payload with a syntactically valid email address. -/
def fV : FormPayload :=
  ⟨"Jane Doe", "jane@example.com", none, none, none, none, none, none, none, none⟩

/-- A request whose last user message carries the payload fV. -/
def bV : PostBody :=
  ⟨[⟨Role.user, ["Customer Follow-Up Form submitted"], some fV⟩], none⟩

/-! ### Lemmas and claim theorems -/

theorem dropWhile_idem (p : Char → Bool) (l : List Char) :
    (l.dropWhile p).dropWhile p = l.dropWhile p := by
  induction l with
  | nil => rfl
  | cons a l ih =>
    by_cases h : p a = true
    · simp [List.dropWhile, h, ih]
    · simp [List.dropWhile, h]

theorem head_false_of_dropWhile (p : Char → Bool) (l : List Char) (a : Char)
    (t : List Char) (h : l.dropWhile p = a :: t) : p a = false := by
  induction l with
  | nil => simp [List.dropWhile] at h
  | cons b l ih =>
    by_cases hb : p b = true
    · simp [List.dropWhile, hb] at h
      exact ih h
    · simp [List.dropWhile, hb] at h
      rcases h with ⟨rfl, rfl⟩
      simpa using hb

theorem dropWhile_of_head_false (p : Char → Bool) (a : Char) (l : List Char)
    (h : p a = false) : (a :: l).dropWhile p = a :: l := by
  simp [List.dropWhile, h]

theorem dropWhile_is_suffix (p : Char → Bool) (l : List Char) :
    ∃ u, u ++ l.dropWhile p = l := by
  induction l with
  | nil => exact ⟨[], rfl⟩
  | cons a l ih =>
    by_cases h : p a = true
    · rcases ih with ⟨u, hu⟩
      exact ⟨a :: u, by simp [List.dropWhile, h, hu]⟩
    · exact ⟨[], by simp [List.dropWhile, h]⟩

theorem trimList_left_trimmed (s : List Char) :
    (trimList s).dropWhile wsChar = trimList s := by
  cases hc : trimList s with
  | nil => rfl
  | cons a t2 =>
    rcases dropWhile_is_suffix wsChar (s.dropWhile wsChar).reverse with ⟨u, hu⟩
    have htt : trimList s ++ u.reverse = s.dropWhile wsChar := by
      have h2 := congrArg List.reverse hu
      simpa [trimList, List.reverse_append] using h2
    rw [hc] at htt
    have hhead : wsChar a = false := by
      have hts : s.dropWhile wsChar = a :: (t2 ++ u.reverse) := by
        rw [← htt]; rfl
      exact head_false_of_dropWhile wsChar s a _ hts
    exact dropWhile_of_head_false wsChar a t2 hhead

theorem trimList_right_trimmed (s : List Char) :
    (trimList s).reverse.dropWhile wsChar = (trimList s).reverse := by
  unfold trimList
  rw [List.reverse_reverse, dropWhile_idem]

theorem trimList_idem (s : List Char) : trimList (trimList s) = trimList s := by
  conv_lhs => rw [trimList]
  rw [trimList_left_trimmed, trimList_right_trimmed, List.reverse_reverse]

theorem trimList_nil_of_ws (s : List Char)
    (h : ∀ c ∈ s, c.isWhitespace = true) : trimList s = [] := by
  have hd : s.dropWhile wsChar = [] := by
    rw [List.dropWhile_eq_nil_iff]
    intro x hx
    simpa [wsChar] using h x hx
  simp [trimList, hd]

theorem jsSlice_natCast (l : List Char) (i size : Nat) :
    jsSlice l (i : Int) ((i : Int) + (size : Int)) = (l.drop i).take size := by
  have h1 : jsIndex l.length (i : Int) = min i l.length := by
    unfold jsIndex
    rw [if_neg (by omega : ¬ ((i : Int) < 0))]
    omega
  have h2 : jsIndex l.length ((i : Int) + (size : Int)) = min (i + size) l.length := by
    unfold jsIndex
    rw [if_neg (by omega : ¬ ((i : Int) + (size : Int) < 0))]
    omega
  unfold jsSlice
  rw [h1, h2]
  rcases le_or_lt l.length i with hle | hlt
  · have hd : l.drop i = [] := List.drop_eq_nil_of_le hle
    have hd2 : l.drop (min i l.length) = [] :=
      List.drop_eq_nil_of_le (by omega)
    rw [hd, hd2, List.take_nil, List.take_nil]
  · have hmin1 : min i l.length = i := by omega
    rw [hmin1]
    rcases le_or_lt (i + size) l.length with hle2 | hlt2
    · have hmin2 : min (i + size) l.length = i + size := by omega
      rw [hmin2]
      congr 1
      omega
    · have hmin2 : min (i + size) l.length = l.length := by omega
      rw [hmin2]
      have hlen : (l.drop i).length = l.length - i := List.length_drop i l
      rw [List.take_of_length_le (by omega), List.take_of_length_le (by omega)]

theorem numWindows_zero (step : Nat) : numWindows 0 step = 0 := by
  unfold numWindows
  rcases Nat.eq_zero_or_pos step with h | h
  · simp [h]
  · rw [Nat.div_eq_of_lt (by omega)]

theorem numWindows_succ (a step : Nat) (hstep : 0 < step) (ha : 0 < a) :
    numWindows a step = numWindows (a - step) step + 1 := by
  unfold numWindows
  rcases le_or_lt a step with hle | hlt
  · have h0 : a - step = 0 := by omega
    rw [h0]
    have hr : (0 + step - 1) / step = 0 := Nat.div_eq_of_lt (by omega)
    rw [hr]
    exact Nat.div_eq_of_lt_le (by omega) (by omega)
  · have : a + step - 1 = (a - step + step - 1) + step := by omega
    rw [this, Nat.add_div_right _ hstep]

theorem numWindows_mul_ge (len step : Nat) (hstep : 0 < step) :
    len ≤ numWindows len step * step := by
  rcases Nat.eq_zero_or_pos len with h | h
  · simp [h]
  · have hdm := Nat.div_add_mod (len + step - 1) step
    have hml : (len + step - 1) % step < step := Nat.mod_lt _ hstep
    unfold numWindows
    rw [mul_comm]
    generalize hX : step * ((len + step - 1) / step) = X at hdm
    omega

theorem chunkTextLoop_char (text : List Char) (size overlap : Nat) (hso : overlap < size) :
    ∀ (fuel i : Nat), text.length - i < fuel →
      chunkTextLoop text size overlap fuel (i : Int) =
        some (((List.range (numWindows (text.length - i) (size - overlap))).map
          (fun k => trimList ((text.drop (i + k * (size - overlap))).take size))).filter
          (fun p => decide (50 < p.length))) := by
  intro fuel
  induction fuel with
  | zero => intro i h; omega
  | succ f ih =>
    intro i h
    by_cases hi : i < text.length
    · have hstep : 0 < size - overlap := by omega
      have hcond : (i : Int) < (text.length : Int) := by exact_mod_cast hi
      have hcast : (i : Int) + ((size : Int) - (overlap : Int))
          = ((i + (size - overlap) : Nat) : Int) := by omega
      simp only [chunkTextLoop]
      rw [if_pos hcond, hcast, ih (i + (size - overlap)) (by omega)]
      rw [Option.map_some']
      rw [jsSlice_natCast]
      have harg : text.length - i - (size - overlap)
          = text.length - (i + (size - overlap)) := by omega
      have hW : numWindows (text.length - i) (size - overlap)
          = numWindows (text.length - (i + (size - overlap))) (size - overlap) + 1 := by
        rw [numWindows_succ (text.length - i) (size - overlap) hstep (by omega), harg]
      rw [hW, List.range_succ_eq_map, List.map_cons, List.map_map]
      simp only [Nat.zero_mul, Nat.add_zero]
      have hfun : ((fun k => trimList ((text.drop (i + k * (size - overlap))).take size))
            ∘ Nat.succ)
          = (fun k => trimList
              ((text.drop ((i + (size - overlap)) + k * (size - overlap))).take size)) := by
        funext k
        simp only [Function.comp]
        have hidx : i + Nat.succ k * (size - overlap)
            = (i + (size - overlap)) + k * (size - overlap) := by
          rw [Nat.succ_eq_add_one]
          ring
        rw [hidx]
      rw [hfun]
      by_cases h50 : 50 < (trimList ((text.drop i).take size)).length
      · rw [if_pos h50, List.filter_cons, if_pos (by simpa using h50)]
      · rw [if_neg h50, List.filter_cons, if_neg (by simpa using h50)]
    · have hcond : ¬ ((i : Int) < (text.length : Int)) := by
        have : text.length ≤ i := by omega
        omega
      simp only [chunkTextLoop]
      rw [if_neg hcond]
      have h0 : text.length - i = 0 := by omega
      rw [h0, numWindows_zero]
      simp

theorem chunkTextLoop_stuck (text : List Char) (size overlap : Nat)
    (hso : size ≤ overlap) (hne : text ≠ []) :
    ∀ (fuel : Nat) (i : Int), i ≤ 0 → chunkTextLoop text size overlap fuel i = none := by
  intro fuel
  induction fuel with
  | zero => intro i hi; rfl
  | succ f ih =>
    intro i hi
    have hlen : 0 < text.length := List.length_pos.mpr hne
    have hcond : i < (text.length : Int) := by omega
    simp only [chunkTextLoop]
    rw [if_pos hcond, ih (i + ((size : Int) - (overlap : Int))) (by omega)]
    rfl

theorem crawlStep_inv (g : Graph) (child : String → List String → CrawlOut)
    (hchild : ∀ url v, CrawlInv v (child url v)) :
    ∀ (urls v : List String), CrawlInv v (crawlStep child g urls v) := by
  intro urls
  induction urls with
  | nil =>
    intro v
    have he : crawlStep child g [] v = ⟨[], v, []⟩ := rfl
    rw [CrawlInv, he]
    exact ⟨fun u hu => hu, by simp, by simp, List.nodup_nil, List.nodup_nil⟩
  | cons url rest ih =>
    intro v
    by_cases hmem : url ∈ v
    · rw [crawlStep, if_pos hmem]
      exact ih v
    · rw [crawlStep, if_neg hmem]
      by_cases hfail : g.fails url = true
      · rw [if_pos hfail]
        rcases ih (url :: v) with ⟨h1, h2, h3, h4, h5⟩
        refine ⟨?_, ?_, ?_, h4, ?_⟩
        · exact fun u hu => h1 (by simp [hu])
        · exact fun u hu => ⟨(h2 u hu).1, fun hv => (h2 u hu).2 (by simp [hv])⟩
        · intro u hu
          rcases List.mem_cons.mp hu with rfl | hu2
          · exact ⟨h1 (by simp), hmem⟩
          · exact ⟨(h3 u hu2).1, fun hv => (h3 u hu2).2 (by simp [hv])⟩
        · rw [List.nodup_cons]
          exact ⟨fun hin => (h3 url hin).2 (by simp), h5⟩
      · rw [if_neg hfail]
        rcases hchild url (url :: v) with ⟨c1, c2, c3, c4, c5⟩
        rcases ih (child url (url :: v)).visited with ⟨i1, i2, i3, i4, i5⟩
        have hvv1 : v ⊆ (child url (url :: v)).visited :=
          fun u hu => c1 (by simp [hu])
        have hvv2 : v ⊆ (crawlStep child g rest (child url (url :: v)).visited).visited :=
          fun u hu => i1 (hvv1 hu)
        have hurl1 : url ∈ (child url (url :: v)).visited := c1 (by simp)
        have hurl2 : url ∈ (crawlStep child g rest (child url (url :: v)).visited).visited :=
          i1 hurl1
        refine ⟨hvv2, ?_, ?_, ?_, ?_⟩
        · intro u hu
          rcases List.mem_cons.mp hu with rfl | hu2
          · exact ⟨hurl2, hmem⟩
          · rcases List.mem_append.mp hu2 with hu3 | hu3
            · exact ⟨i1 (c2 u hu3).1, fun hv => (c2 u hu3).2 (by simp [hv])⟩
            · exact ⟨(i2 u hu3).1, fun hv => (i2 u hu3).2 (hvv1 hv)⟩
        · intro u hu
          rcases List.mem_cons.mp hu with rfl | hu2
          · exact ⟨hurl2, hmem⟩
          · rcases List.mem_append.mp hu2 with hu3 | hu3
            · exact ⟨i1 (c3 u hu3).1, fun hv => (c3 u hu3).2 (by simp [hv])⟩
            · exact ⟨(i3 u hu3).1, fun hv => (i3 u hu3).2 (hvv1 hv)⟩
        · rw [List.nodup_cons, List.nodup_append]
          refine ⟨?_, c4, i4, ?_⟩
          · intro hin
            rcases List.mem_append.mp hin with hu3 | hu3
            · exact (c2 url hu3).2 (by simp)
            · exact (i2 url hu3).2 hurl1
          · intro a ha hb
            exact (i2 a hb).2 (c2 a ha).1
        · rw [List.nodup_cons, List.nodup_append]
          refine ⟨?_, c5, i5, ?_⟩
          · intro hin
            rcases List.mem_append.mp hin with hu3 | hu3
            · exact (c3 url hu3).2 (by simp)
            · exact (i3 url hu3).2 hurl1
          · intro a ha hb
            exact (i3 a hb).2 (c3 a ha).1

theorem crawlList_inv (g : Graph) :
    ∀ (depth : Nat) (urls v : List String), CrawlInv v (crawlList g depth urls v) := by
  intro depth
  induction depth with
  | zero =>
    intro urls v
    have he : crawlList g 0 urls v = ⟨[], v, []⟩ := rfl
    rw [CrawlInv, he]
    exact ⟨fun u hu => hu, by simp, by simp, List.nodup_nil, List.nodup_nil⟩
  | succ d ih =>
    intro urls v
    exact crawlStep_inv g _ (fun url w => ih (g.links url) w) urls v

theorem range_map_pow_shift (n d : Nat) :
    (List.range (n + 1)).map (fun k => 2 ^ k * d)
      = d :: (List.range n).map (fun k => 2 ^ k * (2 * d)) := by
  rw [List.range_succ_eq_map, List.map_cons, List.map_map]
  have hf : ((fun k => 2 ^ k * d) ∘ Nat.succ) = (fun k => 2 ^ k * (2 * d)) := by
    funext k
    simp only [Function.comp, pow_succ]
    ring
  rw [hf]
  simp

theorem embedTextLoop_ok (att : Nat → AttemptResult) (v : List Int) :
    ∀ (n r idx d : Nat), n < r →
      (∀ k, k < n → attemptIsQuotaErr (att (idx + k)) = true) →
      att (idx + n) = AttemptResult.ok v →
      embedTextLoop att r idx d
        = (EmbedResult.ok v, (List.range n).map (fun k => 2 ^ k * d)) := by
  intro n
  induction n with
  | zero =>
    intro r idx d hr _ hok
    rcases r with _ | r0
    · omega
    · simp only [embedTextLoop]
      rw [show idx + 0 = idx from rfl] at hok
      rw [hok]
      simp
  | succ n ih =>
    intro r idx d hr hq hok
    rcases r with _ | r0
    · omega
    · have h0 : attemptIsQuotaErr (att idx) = true := by
        have := hq 0 (by omega)
        simpa using this
      rcases hatt : att idx with v0 | e0
      · rw [hatt] at h0
        simp [attemptIsQuotaErr] at h0
      · rw [hatt] at h0
        have hqe : isQuotaError e0 = true := by simpa [attemptIsQuotaErr] using h0
        simp only [embedTextLoop]
        rw [hatt]
        simp only [hqe, if_true]
        have hrec := ih r0 (idx + 1) (2 * d) (by omega)
          (fun k hk => by
            have := hq (k + 1) (by omega)
            rw [show idx + (k + 1) = idx + 1 + k by omega] at this
            exact this)
          (by rw [show idx + 1 + n = idx + (n + 1) by omega]; exact hok)
        rw [hrec, range_map_pow_shift]

theorem embedTextLoop_exhausted (att : Nat → AttemptResult) :
    ∀ (r idx d : Nat),
      (∀ k, k < r → attemptIsQuotaErr (att (idx + k)) = true) →
      embedTextLoop att r idx d
        = (EmbedResult.exhausted, (List.range r).map (fun k => 2 ^ k * d)) := by
  intro r
  induction r with
  | zero => intro idx d _; simp [embedTextLoop]
  | succ r0 ih =>
    intro idx d hq
    have h0 : attemptIsQuotaErr (att idx) = true := by
      have := hq 0 (by omega)
      simpa using this
    rcases hatt : att idx with v0 | e0
    · rw [hatt] at h0
      simp [attemptIsQuotaErr] at h0
    · rw [hatt] at h0
      have hqe : isQuotaError e0 = true := by simpa [attemptIsQuotaErr] using h0
      simp only [embedTextLoop]
      rw [hatt]
      simp only [hqe, if_true]
      have hrec := ih (idx + 1) (2 * d)
        (fun k hk => by
          have := hq (k + 1) (by omega)
          rw [show idx + (k + 1) = idx + 1 + k by omega] at this
          exact this)
      rw [hrec, range_map_pow_shift]

theorem embedTextLoop_raised (att : Nat → AttemptResult) (e : JsError)
    (he : isQuotaError e = false) :
    ∀ (m r idx d : Nat), m < r →
      (∀ k, k < m → attemptIsQuotaErr (att (idx + k)) = true) →
      att (idx + m) = AttemptResult.err e →
      embedTextLoop att r idx d
        = (EmbedResult.raised e, (List.range m).map (fun k => 2 ^ k * d)) := by
  intro m
  induction m with
  | zero =>
    intro r idx d hr _ herr
    rcases r with _ | r0
    · omega
    · simp only [embedTextLoop]
      rw [show idx + 0 = idx from rfl] at herr
      rw [herr]
      simp [he]
  | succ m0 ih =>
    intro r idx d hr hq herr
    rcases r with _ | r0
    · omega
    · have h0 : attemptIsQuotaErr (att idx) = true := by
        have := hq 0 (by omega)
        simpa using this
      rcases hatt : att idx with v0 | e0
      · rw [hatt] at h0
        simp [attemptIsQuotaErr] at h0
      · rw [hatt] at h0
        have hqe : isQuotaError e0 = true := by simpa [attemptIsQuotaErr] using h0
        simp only [embedTextLoop]
        rw [hatt]
        simp only [hqe, if_true]
        have hrec := ih r0 (idx + 1) (2 * d) (by omega)
          (fun k hk => by
            have := hq (k + 1) (by omega)
            rw [show idx + (k + 1) = idx + 1 + k by omega] at this
            exact this)
          (by rw [show idx + 1 + m0 = idx + (m0 + 1) by omega]; exact herr)
        rw [hrec, range_map_pow_shift]

/-- C6: for every text and every size and overlap with overlap < size,
chunkText terminates (within fuel text.length + 1) and returns exactly the
trimmed size-character windows taken at offsets 0, step, 2 step, ... with
step = size - overlap, in order, filtered to those of trimmed length > 50;
the windows cover every character position of the text; every emitted
segment is trimmed and has trimmed length strictly greater than 50; and an
empty or whitespace-only text yields the empty sequence. -/
theorem c6_chunkText_windows (text : List Char) (size overlap : Nat)
    (h : overlap < size) :
    ∃ L, chunkText text size overlap = some L ∧
      L = ((List.range (numWindows text.length (size - overlap))).map
            (fun k => trimList ((text.drop (k * (size - overlap))).take size))).filter
            (fun p => decide (50 < p.length)) ∧
      (∀ j, j < text.length → ∃ k, k < numWindows text.length (size - overlap) ∧
        k * (size - overlap) ≤ j ∧ j < k * (size - overlap) + size) ∧
      (∀ s ∈ L, 50 < (trimList s).length) ∧
      ((∀ c ∈ text, c.isWhitespace = true) → L = []) := by
  have hstep : 0 < size - overlap := by omega
  have hchar := chunkTextLoop_char text size overlap h (text.length + 1) 0 (by omega)
  rw [Nat.cast_zero, Nat.sub_zero] at hchar
  have hzero : (fun k => trimList ((text.drop (0 + k * (size - overlap))).take size))
      = (fun k => trimList ((text.drop (k * (size - overlap))).take size)) := by
    funext k
    rw [Nat.zero_add]
  rw [hzero] at hchar
  refine ⟨_, hchar, rfl, ?_, ?_, ?_⟩
  · intro j hj
    refine ⟨j / (size - overlap), ?_, Nat.div_mul_le_self j (size - overlap), ?_⟩
    · rw [Nat.div_lt_iff_lt_mul hstep]
      exact lt_of_lt_of_le hj (numWindows_mul_ge text.length (size - overlap) hstep)
    · have hdm := Nat.div_add_mod j (size - overlap)
      have hml : j % (size - overlap) < size - overlap := Nat.mod_lt _ hstep
      have hcm : j / (size - overlap) * (size - overlap)
          = (size - overlap) * (j / (size - overlap)) := mul_comm _ _
      rw [hcm]
      generalize hX : (size - overlap) * (j / (size - overlap)) = X at hdm
      omega
  · intro s hs
    rcases List.mem_filter.mp hs with ⟨hmap, hpred⟩
    have h50 : 50 < s.length := by simpa using hpred
    rcases List.mem_map.mp hmap with ⟨k, hk, hfk⟩
    rw [← hfk, trimList_idem, hfk]
    exact h50
  · intro hws
    rw [List.filter_eq_nil_iff]
    intro a ha
    rcases List.mem_map.mp ha with ⟨k, hk, hfk⟩
    have hnil : trimList ((text.drop (k * (size - overlap))).take size) = [] := by
      apply trimList_nil_of_ws
      intro c hc
      exact hws c (List.drop_subset _ _ (List.take_subset _ _ hc))
    rw [← hfk, hnil]
    simp

/-- C6 witness: the theorem instantiated at the text "a" with size 2 and
overlap 1 (a valid parameter choice). -/
theorem c6_witness :
    1 < 2 ∧
    (∃ L, chunkText ['a'] 2 1 = some L ∧
      L = ((List.range (numWindows (List.length ['a']) (2 - 1))).map
            (fun k => trimList (((['a'] : List Char).drop (k * (2 - 1))).take 2))).filter
            (fun p => decide (50 < p.length)) ∧
      (∀ j, j < List.length ['a'] → ∃ k, k < numWindows (List.length ['a']) (2 - 1) ∧
        k * (2 - 1) ≤ j ∧ j < k * (2 - 1) + 2) ∧
      (∀ s ∈ L, 50 < (trimList s).length) ∧
      ((∀ c ∈ (['a'] : List Char), c.isWhitespace = true) → L = [])) :=
  ⟨by decide, c6_chunkText_windows ['a'] 2 1 (by decide)⟩

/-- C5 counterexample: the claim asserts that overlap >= size is rejected or
clamped so that chunkText terminates for every parameter choice; but on the
one-character text "a" with size = 1 and overlap = 1 the source loop never
terminates (no fuel suffices), because the step size - overlap is zero and
the index never advances. -/
theorem c5_counterexample : ¬ chunkTextTerminates ['a'] 1 1 := by
  intro h
  unfold chunkTextTerminates at h
  rcases h with ⟨fuel, hf⟩
  rw [chunkTextLoop_stuck ['a'] 1 1 (le_refl 1) (by simp) fuel 0 (le_refl 0)] at hf
  simp at hf

/-- C5 amended: chunkText performs no validation of its size and overlap
parameters.  The loop terminates for every text whenever overlap < size;
when size <= overlap and the text is non-empty the loop never terminates
(the source would need to reject or clamp such parameters, but does not). -/
theorem c5_chunkText_termination (text : List Char) (size overlap : Nat) :
    (overlap < size → chunkTextTerminates text size overlap) ∧
    (size ≤ overlap → text ≠ [] → ¬ chunkTextTerminates text size overlap) := by
  constructor
  · intro h
    refine ⟨text.length + 1, ?_⟩
    have hchar := chunkTextLoop_char text size overlap h (text.length + 1) 0 (by omega)
    rw [Nat.cast_zero] at hchar
    rw [hchar]
    rfl
  · intro hso hne hterm
    unfold chunkTextTerminates at hterm
    rcases hterm with ⟨fuel, hf⟩
    rw [chunkTextLoop_stuck text size overlap hso hne fuel 0 (le_refl 0)] at hf
    simp at hf

/-- C5 witness: the amended theorem applied at text "ab", size 2, overlap 1
(terminating) and at text "a", size 1, overlap 2 (non-terminating). -/
theorem c5_witness :
    chunkTextTerminates ['a', 'b'] 2 1 ∧ ¬ chunkTextTerminates ['a'] 1 2 :=
  ⟨(c5_chunkText_termination ['a', 'b'] 2 1).1 (by decide),
   (c5_chunkText_termination ['a'] 1 2).2 (by decide) (by decide)⟩

/-- C2: crawlSiteRecursive is a total function of the link graph, seed URL
and depth (so every crawl, in particular over a cyclic link graph,
terminates with a finite URL list); the returned URL list contains each URL
at most once; and, for any call with any starting visited set, the URLs
actually navigated contain no repetitions and never include a URL already in
the visited set -- a URL, once added to the visited set, is never navigated
again within the same crawl run. -/
theorem c2_crawl_no_revisit (g : Graph) (baseUrl : String) (depth : Nat) :
    (crawlSiteRecursive g baseUrl depth).result.Nodup ∧
    (crawlSiteRecursive g baseUrl depth).navLog.Nodup ∧
    (∀ (d : Nat) (urls visited : List String),
      (crawlList g d urls visited).navLog.Nodup ∧
      (∀ u ∈ (crawlList g d urls visited).navLog, u ∉ visited) ∧
      (crawlList g d urls visited).result.Nodup) := by
  refine ⟨?_, ?_, ?_⟩
  · exact (crawlList_inv g depth [baseUrl] []).2.2.2.1
  · exact (crawlList_inv g depth [baseUrl] []).2.2.2.2
  · intro d urls visited
    rcases crawlList_inv g d urls visited with ⟨h1, h2, h3, h4, h5⟩
    exact ⟨h5, fun u hu => (h3 u hu).2, h4⟩

/-- C2 witness: the theorem instantiated on the cyclic two-page graph with
seed "a" and the source default depth 2. -/
theorem c2_witness :
    (crawlSiteRecursive cyclicG "a" 2).result.Nodup ∧
    (crawlSiteRecursive cyclicG "a" 2).navLog.Nodup ∧
    (∀ (d : Nat) (urls visited : List String),
      (crawlList cyclicG d urls visited).navLog.Nodup ∧
      (∀ u ∈ (crawlList cyclicG d urls visited).navLog, u ∉ visited) ∧
      (crawlList cyclicG d urls visited).result.Nodup) :=
  c2_crawl_no_revisit cyclicG "a" 2

/-- C4: embedText with attempt outcomes att, a retry budget and an initial
delay: if the first N - 1 attempts are quota errors and attempt N succeeds
with vector v, and N is within the budget, the call returns v after sleeping
delay, 2 delay, 4 delay, ... (strict doubling, one sleep per quota error);
if every attempt in the budget is a quota error the call ends in the
retries-exhausted error after retries sleeps; and a non-quota error at any
attempt m within the budget propagates immediately with no further sleep or
attempt. -/
theorem c4_embedText_retry (att : Nat → AttemptResult) (retries delay N m : Nat)
    (v : List Int) (e : JsError) :
    (1 ≤ N → N ≤ retries → (∀ i, i < N - 1 → attemptIsQuotaErr (att i) = true) →
      att (N - 1) = AttemptResult.ok v →
      embedText att retries delay
        = (EmbedResult.ok v, (List.range (N - 1)).map (fun k => 2 ^ k * delay))) ∧
    ((∀ i, i < retries → attemptIsQuotaErr (att i) = true) →
      embedText att retries delay
        = (EmbedResult.exhausted, (List.range retries).map (fun k => 2 ^ k * delay))) ∧
    (m < retries → (∀ i, i < m → attemptIsQuotaErr (att i) = true) →
      att m = AttemptResult.err e → isQuotaError e = false →
      embedText att retries delay
        = (EmbedResult.raised e, (List.range m).map (fun k => 2 ^ k * delay))) := by
  refine ⟨?_, ?_, ?_⟩
  · intro h1 h2 hq hok
    unfold embedText
    exact embedTextLoop_ok att v (N - 1) retries 0 delay (by omega)
      (fun k hk => by simpa using hq k hk) (by simpa using hok)
  · intro hq
    unfold embedText
    exact embedTextLoop_exhausted att retries 0 delay
      (fun k hk => by simpa using hq k hk)
  · intro hm hq herr hqe
    unfold embedText
    exact embedTextLoop_raised att e hqe m retries 0 delay hm
      (fun k hk => by simpa using hq k hk) (by simpa using herr)

/-- C4 witness: with the source defaults retries = 5 and delay = 2000 and
two rate-limited attempts, the call succeeds on the third attempt after
sleeping 2000 ms then 4000 ms. -/
theorem c4_witness :
    (1 ≤ 3 ∧ 3 ≤ 5 ∧ (∀ i, i < 3 - 1 → attemptIsQuotaErr (att0 i) = true) ∧
      att0 (3 - 1) = AttemptResult.ok [1]) ∧
    embedText att0 5 2000
      = (EmbedResult.ok [1], (List.range (3 - 1)).map (fun k => 2 ^ k * 2000)) :=
  ⟨⟨by decide, by decide, by decide, by decide⟩,
    (c4_embedText_retry att0 5 2000 3 0 [1] ⟨false, 0, false⟩).1 (by decide)
      (by decide) (by decide) (by decide)⟩

theorem countFor_append_rows (url : String) (store rows : List ChunkRow)
    (h : ∀ r ∈ rows, r.url = url) :
    countFor url (store ++ rows) = countFor url store + rows.length := by
  unfold countFor
  rw [List.filter_append, List.length_append]
  congr 1
  rw [List.filter_eq_self.mpr]
  intro a ha
  simpa using h a ha

/-- C3: if the store already holds at least one chunk row for the URL,
ensurePageIndexed is a no-op (the store is unchanged, no extraction runs and
no row is inserted); and running ensurePageIndexed twice in succession on
the same URL leaves the store exactly as after the first run, with the
second run inserting nothing -- indexing is idempotent per URL. -/
theorem c3_ensurePageIndexed_idempotent (env : IndexEnv) (url : String)
    (store : List ChunkRow) :
    (0 < countFor url store → ensurePageIndexed env url store = ⟨store, false, []⟩) ∧
    (ensurePageIndexed env url (ensurePageIndexed env url store).store).store
      = (ensurePageIndexed env url store).store ∧
    (ensurePageIndexed env url (ensurePageIndexed env url store).store).inserted
      = [] := by
  constructor
  · intro h
    unfold ensurePageIndexed
    rw [if_pos h]
  · by_cases h : 0 < countFor url store
    · have he : ensurePageIndexed env url store = ⟨store, false, []⟩ := by
        unfold ensurePageIndexed
        rw [if_pos h]
      have hs : (ensurePageIndexed env url store).store = store := by rw [he]
      rw [hs, he]
      exact ⟨rfl, rfl⟩
    · have h0 : countFor url store = 0 := by omega
      set rows := (scrapePage env url).enum.map
        (fun p => ChunkRow.mk url p.1 p.2 (env.embedVec p.2)) with hrows
      have he : ensurePageIndexed env url store = ⟨store ++ rows, true, rows⟩ := by
        unfold ensurePageIndexed
        rw [if_neg (by omega)]
      have hurl : ∀ r ∈ rows, r.url = url := by
        intro r hr
        rw [hrows] at hr
        rcases List.mem_map.mp hr with ⟨p, hp, hpr⟩
        rw [← hpr]
      have hcount : countFor url (store ++ rows) = rows.length := by
        rw [countFor_append_rows url store rows hurl, h0, Nat.zero_add]
      have hs : (ensurePageIndexed env url store).store = store ++ rows := by rw [he]
      rw [hs]
      rcases Nat.eq_zero_or_pos rows.length with hlen | hlen
      · have hnil : rows = [] := List.length_eq_zero.mp hlen
        rw [hnil, List.append_nil] at he
        rw [hnil, List.append_nil, he]
        exact ⟨rfl, rfl⟩
      · have hc2 : 0 < countFor url (store ++ rows) := by omega
        have he2 : ensurePageIndexed env url (store ++ rows)
            = ⟨store ++ rows, false, []⟩ := by
          unfold ensurePageIndexed
          rw [if_pos hc2]
        rw [he2]
        exact ⟨rfl, rfl⟩

/-- C3 witness: on a store that already holds a chunk row for u, the call is
a no-op, and the double call inserts nothing beyond the first. -/
theorem c3_witness :
    0 < countFor "u" [rowA] ∧
    ensurePageIndexed envA "u" [rowA] = ⟨[rowA], false, []⟩ ∧
    (ensurePageIndexed envA "u" (ensurePageIndexed envA "u" [rowA]).store).store
      = (ensurePageIndexed envA "u" [rowA]).store ∧
    (ensurePageIndexed envA "u" (ensurePageIndexed envA "u" [rowA]).store).inserted
      = [] :=
  ⟨by decide,
   (c3_ensurePageIndexed_idempotent envA "u" [rowA]).1 (by decide),
   (c3_ensurePageIndexed_idempotent envA "u" [rowA]).2.1,
   (c3_ensurePageIndexed_idempotent envA "u" [rowA]).2.2⟩

/-- C9: on a fresh URL (no chunk row in the store), ensurePageIndexed
inserts exactly one row per extracted chunk, in extraction order, and the
chunk_index values of the inserted rows are 0, 1, 2, ... -- contiguous from
0 in order and therefore unique for the URL in this pass. -/
theorem c9_chunk_index_contiguous (env : IndexEnv) (url : String)
    (store : List ChunkRow) (h : countFor url store = 0) :
    (ensurePageIndexed env url store).inserted
      = (scrapePage env url).enum.map
          (fun p => ChunkRow.mk url p.1 p.2 (env.embedVec p.2)) ∧
    (ensurePageIndexed env url store).inserted.map (fun r => r.chunk_index)
      = List.range (scrapePage env url).length ∧
    ((ensurePageIndexed env url store).inserted.map (fun r => r.chunk_index)).Nodup := by
  have hi : (ensurePageIndexed env url store).inserted
      = (scrapePage env url).enum.map
          (fun p => ChunkRow.mk url p.1 p.2 (env.embedVec p.2)) := by
    unfold ensurePageIndexed
    rw [if_neg (by omega)]
  have hcomp : ((fun r => ChunkRow.chunk_index r)
        ∘ (fun p : Nat × List Char => ChunkRow.mk url p.1 p.2 (env.embedVec p.2)))
      = (fun p : Nat × List Char => p.1) := rfl
  have hmapidx : (ensurePageIndexed env url store).inserted.map (fun r => r.chunk_index)
      = List.range (scrapePage env url).length := by
    rw [hi, List.map_map, hcomp, List.enum_map_fst]
  refine ⟨hi, hmapidx, ?_⟩
  rw [hmapidx]
  exact List.nodup_range _

/-- C9 witness: indexing the URL u against an empty store. -/
theorem c9_witness :
    countFor "u" [] = 0 ∧
    ((ensurePageIndexed envB "u" []).inserted
      = (scrapePage envB "u").enum.map
          (fun p => ChunkRow.mk "u" p.1 p.2 (envB.embedVec p.2)) ∧
     (ensurePageIndexed envB "u" []).inserted.map (fun r => r.chunk_index)
      = List.range (scrapePage envB "u").length ∧
     ((ensurePageIndexed envB "u" []).inserted.map (fun r => r.chunk_index)).Nodup) :=
  ⟨rfl, c9_chunk_index_contiguous envB "u" [] rfl⟩

/-- C7: searchDocuments embeds the query through embedText (with the source
defaults retries = 5, delay = 2000) and propagates its failures; on a
successful embedding it queries the store for topK matches; a store error is
propagated to the caller; a null result set yields the empty string without
any error; and a non-empty result set yields the matched texts joined by a
blank line in the order returned by the store. -/
theorem c7_searchDocuments (env : SearchEnv) (query : String) (topK : Nat) :
    (∀ e, (embedText (env.att query) 5 2000).1 = EmbedResult.raised e →
      searchDocuments env query topK
        = SearchOutcome.embedError (EmbedResult.raised e)) ∧
    ((embedText (env.att query) 5 2000).1 = EmbedResult.exhausted →
      searchDocuments env query topK
        = SearchOutcome.embedError EmbedResult.exhausted) ∧
    (∀ v err, (embedText (env.att query) 5 2000).1 = EmbedResult.ok v →
      env.rpc v topK = Except.error err →
      searchDocuments env query topK = SearchOutcome.storeError err) ∧
    (∀ v, (embedText (env.att query) 5 2000).1 = EmbedResult.ok v →
      env.rpc v topK = Except.ok none →
      searchDocuments env query topK = SearchOutcome.ok "") ∧
    (∀ v rows, (embedText (env.att query) 5 2000).1 = EmbedResult.ok v →
      env.rpc v topK = Except.ok (some rows) →
      searchDocuments env query topK
        = SearchOutcome.ok (String.intercalate "\n\n" (rows.map DocumentRow.text))) := by
  refine ⟨?_, ?_, ?_, ?_, ?_⟩
  · intro e he
    unfold searchDocuments
    rw [he]
  · intro he
    unfold searchDocuments
    rw [he]
  · intro v err hv hr
    unfold searchDocuments
    rw [hv]
    simp only [hr]
  · intro v hv hr
    unfold searchDocuments
    rw [hv]
    simp only [hr]
    rfl
  · intro v rows hv hr
    unfold searchDocuments
    rw [hv]
    simp only [hr]
    rfl

/-- C7 witness: a query against the two-row store returns the two texts
joined by a blank line, in store order. -/
theorem c7_witness :
    ((embedText (envS.att "q") 5 2000).1 = EmbedResult.ok [0] ∧
      envS.rpc [0] 4 = Except.ok (some [⟨"hello"⟩, ⟨"world"⟩])) ∧
    searchDocuments envS "q" 4
      = SearchOutcome.ok (String.intercalate "\n\n"
          (([⟨"hello"⟩, ⟨"world"⟩] : List DocumentRow).map DocumentRow.text)) :=
  ⟨⟨by decide, rfl⟩,
   (c7_searchDocuments envS "q" 4).2.2.2.2 [0] [⟨"hello"⟩, ⟨"world"⟩] (by decide) rfl⟩

theorem POST_started (env : PostEnv) (st : PostState) (b : PostBody) :
    (POST env st b).state.indexingStarted
      = (st.indexingStarted || (lastUserForm b).isNone) ∧
    (POST env st b).events.countP isTrigger
      = (if st.indexingStarted = false ∧ (lastUserForm b).isNone = true
          then 1 else 0) := by
  rcases hf : lastUserForm b with _ | f
  · by_cases hr : lastUserText b = "" <;>
      cases hst : st.indexingStarted <;>
        simp [POST, hf, hr, hst, isTrigger,
          List.countP_cons, List.countP_nil, List.countP_append]
  · rcases he : env.insertLeadError with _ | e <;>
      cases hst : st.indexingStarted <;>
        simp [POST, hf, he, hst, isTrigger, List.countP_cons, List.countP_nil]

theorem runPosts_started (rs : List (PostEnv × PostBody)) :
    ∀ st : PostState,
      (st.indexingStarted = true →
        (runPosts rs st).1.indexingStarted = true ∧
        (runPosts rs st).2.countP isTrigger = 0) ∧
      (runPosts rs st).2.countP isTrigger ≤ 1 := by
  induction rs with
  | nil =>
    intro st
    exact ⟨fun h => ⟨h, by simp [runPosts]⟩, by simp [runPosts]⟩
  | cons r rs ih =>
    intro st
    rcases r with ⟨env, b⟩
    have hp := POST_started env st b
    have hrun : runPosts ((env, b) :: rs) st
        = ((runPosts rs (POST env st b).state).1,
           (POST env st b).events ++ (runPosts rs (POST env st b).state).2) := rfl
    rw [hrun]
    constructor
    · intro h
      have h1 : (POST env st b).state.indexingStarted = true := by
        rw [hp.1, h]
        simp
      have h2 : (POST env st b).events.countP isTrigger = 0 := by
        rw [hp.2]
        simp [h]
      rcases (ih (POST env st b).state).1 h1 with ⟨h3, h4⟩
      exact ⟨h3, by rw [List.countP_append, h2, h4]⟩
    · cases hst : st.indexingStarted
      · cases hforms : (lastUserForm b).isNone
        · have h2 : (POST env st b).events.countP isTrigger = 0 := by
            rw [hp.2]
            simp [hforms]
          have h1 : (POST env st b).state.indexingStarted = false := by
            rw [hp.1, hst, hforms]
            rfl
          have h5 := (ih (POST env st b).state).2
          rw [List.countP_append, h2]
          simpa using h5
        · have h2 : (POST env st b).events.countP isTrigger = 1 := by
            rw [hp.2]
            simp [hst, hforms]
          have h1 : (POST env st b).state.indexingStarted = true := by
            rw [hp.1, hst, hforms]
            rfl
          rcases (ih (POST env st b).state).1 h1 with ⟨h3, h4⟩
          rw [List.countP_append, h2, h4]
      · have h2 : (POST env st b).events.countP isTrigger = 0 := by
          rw [hp.2]
          simp [hst]
        have h1 : (POST env st b).state.indexingStarted = true := by
          rw [hp.1, hst]
          rfl
        rcases (ih (POST env st b).state).1 h1 with ⟨h3, h4⟩
        rw [List.countP_append, h2, h4]
        omega

/-- C8: the process starts with indexingStarted = false; across any sequence
of POST requests the crawl-and-index run is triggered at most once; and once
the flag is true it stays true for every further request with no further
trigger -- the flag is never reset within a process lifetime. -/
theorem c8_indexing_once :
    (PostState.mk false []).indexingStarted = false ∧
    (∀ rs : List (PostEnv × PostBody),
      (runPosts rs (PostState.mk false [])).2.countP isTrigger ≤ 1) ∧
    (∀ (rs : List (PostEnv × PostBody)) (st : PostState),
      st.indexingStarted = true →
      (runPosts rs st).1.indexingStarted = true ∧
      (runPosts rs st).2.countP isTrigger = 0) := by
  refine ⟨rfl, ?_, ?_⟩
  · intro rs
    exact (runPosts_started rs _).2
  · intro rs st h
    exact (runPosts_started rs st).1 h

/-- C8 witness: the third conjunct instantiated at the empty request list
and a state whose flag is already set. -/
theorem c8_witness :
    (PostState.mk true []).indexingStarted = true ∧
    (runPosts [] (PostState.mk true [])).1.indexingStarted = true ∧
    (runPosts [] (PostState.mk true [])).2.countP isTrigger = 0 :=
  ⟨rfl, (c8_indexing_once.2.2 [] (PostState.mk true []) rfl).1,
    (c8_indexing_once.2.2 [] (PostState.mk true []) rfl).2⟩

/-- C10: when the last user message carries a form payload, the handler
takes only the lead-insert path: its sole effect is the one lead-insert
attempt, it performs no retrieval and no language-model call, it never
reaches the indexing guard, and the indexingStarted flag is unchanged. -/
theorem c10_form_path_frame (env : PostEnv) (st : PostState) (b : PostBody)
    (f : FormPayload) (hf : lastUserForm b = some f) :
    (POST env st b).state.indexingStarted = st.indexingStarted ∧
    (POST env st b).events = [PostEvent.leadInsert (leadOfForm f)] ∧
    (POST env st b).events.countP isTrigger = 0 ∧
    (POST env st b).events.countP isRetrievalEv = 0 ∧
    (POST env st b).events.countP isModelCallEv = 0 := by
  rcases he : env.insertLeadError with _ | e
  · have hp : POST env st b
        = ⟨⟨st.indexingStarted, st.leads ++ [leadOfForm f]⟩, 200,
            [PostEvent.leadInsert (leadOfForm f)]⟩ := by
      simp [POST, hf, he]
    rw [hp]
    refine ⟨rfl, rfl, ?_, ?_, ?_⟩ <;>
      simp [isTrigger, isRetrievalEv, isModelCallEv,
        List.countP_cons, List.countP_nil]
  · have hp : POST env st b
        = ⟨st, 500, [PostEvent.leadInsert (leadOfForm f)]⟩ := by
      simp [POST, hf, he]
    rw [hp]
    refine ⟨rfl, rfl, ?_, ?_, ?_⟩ <;>
      simp [isTrigger, isRetrievalEv, isModelCallEv,
        List.countP_cons, List.countP_nil]

/-- C1 amended: the POST form path performs no validation whatsoever of the
payload: for every form payload on the last user message -- whatever its
name and email fields hold -- a lead insert is attempted; when the store
reports no error exactly one lead row built from the payload fields is
appended and a success response returned, and when the store reports an
error no row is appended and a 500 response is returned.  (The claimed
name/email validation exists only client-side, before the request is sent,
and in the collectForm tool schema -- not on this handler path.) -/
theorem c1_lead_insert_unvalidated (env : PostEnv) (st : PostState) (b : PostBody)
    (f : FormPayload) (hf : lastUserForm b = some f) :
    (env.insertLeadError = none →
      (POST env st b).state.leads = st.leads ++ [leadOfForm f] ∧
      (POST env st b).status = 200) ∧
    (∀ e, env.insertLeadError = some e →
      (POST env st b).state.leads = st.leads ∧ (POST env st b).status = 500) := by
  constructor
  · intro he
    have hp : POST env st b
        = ⟨⟨st.indexingStarted, st.leads ++ [leadOfForm f]⟩, 200,
            [PostEvent.leadInsert (leadOfForm f)]⟩ := by
      simp [POST, hf, he]
    rw [hp]
    exact ⟨rfl, rfl⟩
  · intro e he
    have hp : POST env st b
        = ⟨st, 500, [PostEvent.leadInsert (leadOfForm f)]⟩ := by
      simp [POST, hf, he]
    rw [hp]
    exact ⟨rfl, rfl⟩

/-- C1 counterexample: the claim requires the payload name "Jane Doe",
email "not-an-email" to be rejected before any store write; but the handler
inserts the lead row and answers 200 -- the email is not validated (it fails
the client-side email test, as the first conjunct records). -/
theorem c1_counterexample :
    validEmail "not-an-email" = false ∧
    (POST ⟨none⟩ ⟨false, []⟩ b0).state.leads = [leadOfForm f0] ∧
    (POST ⟨none⟩ ⟨false, []⟩ b0).status = 200 :=
  ⟨by decide, by decide, by decide⟩

/-- C1 witness: the amended theorem at a valid payload and an error-free
store: exactly one row is inserted and the response is 200. -/
theorem c1_witness :
    lastUserForm bV = some fV ∧ validEmail "jane@example.com" = true ∧
    ((POST ⟨none⟩ ⟨false, []⟩ bV).state.leads
        = (PostState.mk false []).leads ++ [leadOfForm fV] ∧
      (POST ⟨none⟩ ⟨false, []⟩ bV).status = 200) :=
  ⟨rfl, by decide,
    (c1_lead_insert_unvalidated ⟨none⟩ ⟨false, []⟩ bV fV rfl).1 rfl⟩

/-- C10 witness: the frame theorem at the concrete form request b0. -/
theorem c10_witness :
    lastUserForm b0 = some f0 ∧
    ((POST ⟨none⟩ ⟨false, []⟩ b0).state.indexingStarted
        = (PostState.mk false []).indexingStarted ∧
      (POST ⟨none⟩ ⟨false, []⟩ b0).events = [PostEvent.leadInsert (leadOfForm f0)] ∧
      (POST ⟨none⟩ ⟨false, []⟩ b0).events.countP isTrigger = 0 ∧
      (POST ⟨none⟩ ⟨false, []⟩ b0).events.countP isRetrievalEv = 0 ∧
      (POST ⟨none⟩ ⟨false, []⟩ b0).events.countP isModelCallEv = 0) :=
  ⟨rfl, c10_form_path_frame ⟨none⟩ ⟨false, []⟩ b0 f0 rfl⟩
